import Mathlib

/-
  Shallow embedding of qt_thread_updater/thread_updater.py.

  Callable identities and the (args, kwargs) pair passed to a call are both
  modelled as natural numbers: the dispatcher never inspects either, it only
  stores them, compares callable identities for dictionary keying, and hands
  the pair back to the callable at invocation time.

  Wall-clock time (time.time()) is modelled as an integer supplied to the
  operations that read the clock (delay, run_update via DelayedFunc.can_run).

  Whether an invocation raises is modelled by an oracle
  fails : Nat -> Nat -> Bool consulted at the point the source calls
  func(*args, **kwargs); run_update returns the list of invocations it
  performed together with an aborted flag that is true exactly when an
  exception escaped run_update (RAISE_ERROR policy).

  Qt signal emissions (starting / stopping / creating), used by the source to
  marshal control operations onto the main thread, are modelled as a list of
  pending marshalled requests appended to the state; the thread-identity
  predicate is_main_thread() becomes an explicit isMain argument on every
  operation whose source consults it.
-/

namespace QtThreadUpdater

/-- Error-handling policy (class DebugTypes): PRINT_ERROR prints the traceback
and continues, HIDE_ERROR ignores the error and continues, RAISE_ERROR lets the
exception escape run_update. -/
inductive DebugType
  | printErr
  | hideErr
  | raiseErr
  deriving DecidableEq, Repr

/-- An invocation request: (callable identity, argument value). -/
abbrev Call := Nat × Nat

/-- Marshalled cross-thread requests: the starting / stopping / creating Qt
signals emitted when a control method runs off the main thread. -/
inductive Signal
  | starting
  | stopping
  | creating
  deriving DecidableEq, Repr

/-- class DelayedFunc: submit time, requested delay, target and arguments. -/
structure DelayedFunc where
  start_time : Int
  delay_time : Int
  func : Nat
  args : Nat
  deriving DecidableEq, Repr

/-- DelayedFunc.can_run: (time.time() - self.start_time) >= self.delay_time. -/
def DelayedFunc.can_run (d : DelayedFunc) (now : Int) : Bool :=
  now - d.start_time ≥ d.delay_time

/-- OrderedDict assignment d[k] = v: when the key exists its value is replaced
in place (iteration position preserved); otherwise the binding is appended. -/
def odSet (d : List (Nat × Nat)) (k : Nat) (v : Nat) : List (Nat × Nat) :=
  if d.any (fun p => p.1 == k) then
    d.map (fun p => if p.1 == k then (p.1, v) else p)
  else d ++ [(k, v)]

/-- OrderedDict d.pop(k, None): removes the binding for k when present. -/
def odPop (d : List (Nat × Nat)) (k : Nat) : List (Nat × Nat) :=
  d.filter (fun p => p.1 != k)

/-- The body of call_in_main's locked section: d[k].append(v) when the key
exists, d[k] = [v] otherwise. -/
def odAppend (d : List (Nat × List Nat)) (k : Nat) (v : Nat) :
    List (Nat × List Nat) :=
  if d.any (fun p => p.1 == k) then
    d.map (fun p => if p.1 == k then (p.1, p.2 ++ [v]) else p)
  else d ++ [(k, [v])]

/-- The keys of an OrderedDict, in iteration order. -/
def odKeys (d : List (Nat × Nat)) : List Nat := d.map Prod.fst

/-- The keys of the queued-calls OrderedDict, in iteration order. -/
def odKeysQ (d : List (Nat × List Nat)) : List Nat := d.map Prod.fst

/-- The mutable state of a ThreadUpdater instance: the four pending-work
collections, the running flag, the timer handle (none = no timer created;
some b = timer exists and b says whether it is active), the error policy and
the marshalled signal requests not yet processed by the main thread. -/
structure ThreadUpdater where
  latest_call : List (Nat × Nat)
  every_call : List (Nat × List Nat)
  always_call : List (Nat × Nat)
  delay_call : List DelayedFunc
  running : Bool
  tmr : Option Bool
  debug_type : DebugType
  pending : List Signal
  deriving DecidableEq, Repr

/-- ThreadUpdater.is_running. -/
def is_running (u : ThreadUpdater) : Bool := u.running

/-- ThreadUpdater.ensure_running: if not running, set _running = True and emit
the starting signal.  The source performs these steps on whatever thread calls
it — is_main_thread() is not consulted — so the isMain argument is ignored. -/
def ensure_running (_isMain : Bool) (u : ThreadUpdater) : ThreadUpdater :=
  if u.running then u
  else { u with running := true, pending := u.pending ++ [Signal.starting] }

/-- ThreadUpdater.register_continuous. -/
def register_continuous (isMain : Bool) (f a : Nat) (u : ThreadUpdater) :
    ThreadUpdater :=
  ensure_running isMain { u with always_call := odSet u.always_call f a }

/-- ThreadUpdater.unregister_continuous. -/
def unregister_continuous (f : Nat) (u : ThreadUpdater) : ThreadUpdater :=
  { u with always_call := odPop u.always_call f }

/-- ThreadUpdater.call_latest. -/
def call_latest (isMain : Bool) (f a : Nat) (u : ThreadUpdater) : ThreadUpdater :=
  ensure_running isMain { u with latest_call := odSet u.latest_call f a }

/-- ThreadUpdater.call_in_main. -/
def call_in_main (isMain : Bool) (f a : Nat) (u : ThreadUpdater) : ThreadUpdater :=
  ensure_running isMain { u with every_call := odAppend u.every_call f a }

/-- ThreadUpdater.delay: time.time() is read before the lock is taken. -/
def delay (isMain : Bool) (now seconds : Int) (f a : Nat) (u : ThreadUpdater) :
    ThreadUpdater :=
  ensure_running isMain { u with delay_call := u.delay_call ++ [⟨now, seconds, f, a⟩] }

/-- ThreadUpdater.now_call_latest: on the main thread, call func directly with
no handle_error wrapper (the Bool result is whether the exception reached the
caller); off the main thread, fall through to call_latest. -/
def now_call_latest (isMain : Bool) (fails : Nat → Nat → Bool) (f a : Nat)
    (u : ThreadUpdater) : ThreadUpdater × List Call × Bool :=
  if isMain then (u, [(f, a)], fails f a)
  else (call_latest isMain f a u, [], false)

/-- ThreadUpdater.now_call_in_main: same fast path as now_call_latest, falling
through to call_in_main off the main thread. -/
def now_call_in_main (isMain : Bool) (fails : Nat → Nat → Bool) (f a : Nat)
    (u : ThreadUpdater) : ThreadUpdater × List Call × Bool :=
  if isMain then (u, [(f, a)], fails f a)
  else (call_in_main isMain f a u, [], false)

/-- ThreadUpdater.stop: off the main thread, only the stopping signal is
emitted; on it, the timer (when present) is deactivated and, when set_state,
_running is cleared. -/
def stop (isMain : Bool) (set_state : Bool) (u : ThreadUpdater) : ThreadUpdater :=
  if isMain then
    let u1 := { u with tmr := u.tmr.map (fun _ => false) }
    if set_state then { u1 with running := false } else u1
  else { u with pending := u.pending ++ [Signal.stopping] }

/-- ThreadUpdater.create_timer: off the main thread, only the creating signal
is emitted; on it, stop(set_state=False) then a fresh inactive timer. -/
def create_timer (isMain : Bool) (u : ThreadUpdater) : ThreadUpdater :=
  if isMain then { stop isMain false u with tmr := some false }
  else { u with pending := u.pending ++ [Signal.creating] }

/-- ThreadUpdater.start: off the main thread, only the starting signal is
emitted; on it, stop(set_state=False), set _running, lazily create the timer,
then activate it. -/
def start (isMain : Bool) (u : ThreadUpdater) : ThreadUpdater :=
  if isMain then
    let u1 := { stop isMain false u with running := true }
    let u2 := if u1.tmr.isNone then create_timer isMain u1 else u1
    { u2 with tmr := some true }
  else { u with pending := u.pending ++ [Signal.starting] }

/-- The locked delayed-collection pass of run_update:
[self._delay_call.pop(i) for i in reversed(range(len(self._delay_call)))
 if self._delay_call[i].can_run()].
Indices are visited from the back, so the collected (first component)
list holds the eligible entries in reverse list order; the second component is
what remains in _delay_call (the ineligible entries, order preserved). -/
def collectDelayed (now : Int) : List DelayedFunc → List DelayedFunc × List DelayedFunc
  | [] => ([], [])
  | d :: rest =>
    let r := collectDelayed now rest
    if d.can_run now then (r.1 ++ [d], r.2) else (r.1, d :: r.2)

/-- The execution loop of run_update over an already-collected list of calls,
each wrapped in handle_error: under PRINT_ERROR / HIDE_ERROR every call is
performed and failures are swallowed; under RAISE_ERROR the first failing call
re-raises, aborting the rest of the list.  Returns the invocations actually
performed (a failing call is still an invocation) and whether an exception
escaped. -/
def runCalls (dt : DebugType) (fails : Nat → Nat → Bool) : List Call → List Call × Bool
  | [] => ([], false)
  | c :: rest =>
    if dt == DebugType.raiseErr && fails c.1 c.2 then ([c], true)
    else
      let r := runCalls dt fails rest
      (c :: r.1, r.2)

/-- The fixed execution order run_update hands to its loops: collected delayed
entries first, then the continuous snapshot, then the latest snapshot, then the
queued snapshot grouped by target in per-target submission order. -/
def drainOrder (now : Int) (u : ThreadUpdater) : List Call :=
  (collectDelayed now u.delay_call).1.map (fun d => (d.func, d.args))
    ++ u.always_call ++ u.latest_call
    ++ u.every_call.flatMap (fun p => p.2.map (fun a => (p.1, a)))

/-- ThreadUpdater.run_update: snapshot _always_call without clearing it, swap
_latest_call and _every_call for empty dictionaries, pop the eligible delayed
entries, then execute everything in drainOrder under handle_error. -/
def run_update (now : Int) (fails : Nat → Nat → Bool) (u : ThreadUpdater) :
    ThreadUpdater × List Call × Bool :=
  let remaining := (collectDelayed now u.delay_call).2
  let r := runCalls u.debug_type fails (drainOrder now u)
  ({ u with latest_call := [], every_call := [], delay_call := remaining },
   r.1, r.2)

/-- The invocations of a drain that target f, in execution order. -/
def callsTo (f : Nat) (tr : List Call) : List Call :=
  tr.filter (fun c => c.1 == f)

/-- Iterate run_update n times, returning the final state and the list of the
n per-drain invocation traces in drain order. -/
def drainTraces (now : Int) (fails : Nat → Nat → Bool) :
    Nat → ThreadUpdater → ThreadUpdater × List (List Call)
  | 0, u => (u, [])
  | n + 1, u =>
    let r := run_update now fails u
    let s := drainTraces now fails n r.1
    (s.1, r.2.1 :: s.2)

/-- The arguments queued for target k in the queued-calls dictionary. -/
def qArgs (d : List (Nat × List Nat)) (k : Nat) : List Nat :=
  (d.filter (fun p => p.1 == k)).flatMap (fun p => p.2)

/-- A sequence of call_in_main submissions for one target, oldest first. -/
def submitQueuedAll (isMain : Bool) (f : Nat) (xs : List Nat)
    (u : ThreadUpdater) : ThreadUpdater :=
  xs.foldl (fun w x => call_in_main isMain f x w) u

/-- A callable that never raises. -/
def failNone : Nat → Nat → Bool := fun _ _ => false

/-- An oracle under which exactly the callable with identity 1 raises. -/
def fail1 : Nat → Nat → Bool := fun f _ => f == 1

/-- An idle updater: timer created and active, default PRINT_ERROR policy,
no pending work. -/
def uBase : ThreadUpdater :=
  ⟨[], [], [], [], true, some true, DebugType.printErr, []⟩

/-- Two delayed entries, both already eligible, submitted in order: target 1
first (list position 0), then target 2 (list position 1). -/
def u5cex : ThreadUpdater :=
  { uBase with delay_call := [⟨0, 0, 1, 11⟩, ⟨0, 0, 2, 22⟩] }

/-- One eligible delayed entry (target 1) and one not yet eligible
(target 9, 100 time units of delay). -/
def u6w : ThreadUpdater :=
  { uBase with delay_call := [⟨0, 0, 1, 11⟩, ⟨0, 100, 9, 99⟩] }

/-- Two continuous callbacks: target 1 registered first, then target 2,
under the HIDE_ERROR policy. -/
def u7w : ThreadUpdater :=
  { uBase with always_call := [(1, 10), (2, 20)],
               debug_type := DebugType.hideErr }

/-- Two continuous callbacks under the RAISE_ERROR policy. -/
def u8w : ThreadUpdater :=
  { uBase with always_call := [(1, 10), (2, 20)],
               debug_type := DebugType.raiseErr }

/-- A stopped updater with no timer yet. -/
def u9cex : ThreadUpdater :=
  { uBase with running := false, tmr := none }

/-! ### Basic lemmas about the embedded operations -/

@[simp]
lemma ensure_running_latest_call (m : Bool) (u : ThreadUpdater) :
    (ensure_running m u).latest_call = u.latest_call := by
  unfold ensure_running; split <;> rfl

@[simp]
lemma ensure_running_every_call (m : Bool) (u : ThreadUpdater) :
    (ensure_running m u).every_call = u.every_call := by
  unfold ensure_running; split <;> rfl

@[simp]
lemma ensure_running_always_call (m : Bool) (u : ThreadUpdater) :
    (ensure_running m u).always_call = u.always_call := by
  unfold ensure_running; split <;> rfl

@[simp]
lemma ensure_running_delay_call (m : Bool) (u : ThreadUpdater) :
    (ensure_running m u).delay_call = u.delay_call := by
  unfold ensure_running; split <;> rfl

@[simp]
lemma ensure_running_debug_type (m : Bool) (u : ThreadUpdater) :
    (ensure_running m u).debug_type = u.debug_type := by
  unfold ensure_running; split <;> rfl

@[simp]
lemma call_latest_latest_call (m : Bool) (f a : Nat) (u : ThreadUpdater) :
    (call_latest m f a u).latest_call = odSet u.latest_call f a := by
  simp [call_latest]

@[simp]
lemma call_latest_every_call (m : Bool) (f a : Nat) (u : ThreadUpdater) :
    (call_latest m f a u).every_call = u.every_call := by
  simp [call_latest]

@[simp]
lemma call_latest_always_call (m : Bool) (f a : Nat) (u : ThreadUpdater) :
    (call_latest m f a u).always_call = u.always_call := by
  simp [call_latest]

@[simp]
lemma call_latest_delay_call (m : Bool) (f a : Nat) (u : ThreadUpdater) :
    (call_latest m f a u).delay_call = u.delay_call := by
  simp [call_latest]

@[simp]
lemma call_latest_debug_type (m : Bool) (f a : Nat) (u : ThreadUpdater) :
    (call_latest m f a u).debug_type = u.debug_type := by
  simp [call_latest]

@[simp]
lemma call_in_main_every_call (m : Bool) (f a : Nat) (u : ThreadUpdater) :
    (call_in_main m f a u).every_call = odAppend u.every_call f a := by
  simp [call_in_main]

@[simp]
lemma call_in_main_latest_call (m : Bool) (f a : Nat) (u : ThreadUpdater) :
    (call_in_main m f a u).latest_call = u.latest_call := by
  simp [call_in_main]

@[simp]
lemma call_in_main_always_call (m : Bool) (f a : Nat) (u : ThreadUpdater) :
    (call_in_main m f a u).always_call = u.always_call := by
  simp [call_in_main]

@[simp]
lemma call_in_main_delay_call (m : Bool) (f a : Nat) (u : ThreadUpdater) :
    (call_in_main m f a u).delay_call = u.delay_call := by
  simp [call_in_main]

@[simp]
lemma call_in_main_debug_type (m : Bool) (f a : Nat) (u : ThreadUpdater) :
    (call_in_main m f a u).debug_type = u.debug_type := by
  simp [call_in_main]

/-- Under PRINT_ERROR or HIDE_ERROR, handle_error swallows every failure, so
the run loop performs every collected call and no exception escapes. -/
lemma runCalls_of_ne_raise (dt : DebugType) (h : dt ≠ DebugType.raiseErr)
    (fails : Nat → Nat → Bool) (l : List Call) :
    runCalls dt fails l = (l, false) := by
  induction l with
  | nil => rfl
  | cons c rest ih =>
    have hdt : (dt == DebugType.raiseErr) = false := by
      simp [h]
    simp [runCalls, hdt, ih]

/-- The reversed-index pop loop collects exactly the eligible entries, in
reverse list order, and leaves exactly the ineligible entries, in order. -/
lemma collectDelayed_eq (now : Int) (l : List DelayedFunc) :
    collectDelayed now l
      = ((l.filter (fun d => d.can_run now)).reverse,
         l.filter (fun d => !(d.can_run now))) := by
  induction l with
  | nil => rfl
  | cons d rest ih =>
    by_cases h : d.can_run now = true
    · simp [collectDelayed, ih, h, List.filter_cons]
    · simp only [Bool.not_eq_true] at h
      simp [collectDelayed, ih, h, List.filter_cons]

/-- The state left by run_update: _always_call untouched, _latest_call and
_every_call swapped for empty dictionaries, eligible delayed entries popped,
everything else (running flag, timer, policy, pending signals) untouched. -/
lemma run_update_state (now : Int) (fails : Nat → Nat → Bool)
    (u : ThreadUpdater) :
    (run_update now fails u).1
      = { u with latest_call := [], every_call := [],
                 delay_call := u.delay_call.filter (fun d => !(d.can_run now)) } := by
  simp [run_update, collectDelayed_eq]

/-- Under a non-raising policy the drain trace is exactly drainOrder. -/
lemma run_update_trace_of_ne_raise (now : Int) (fails : Nat → Nat → Bool)
    (u : ThreadUpdater) (h : u.debug_type ≠ DebugType.raiseErr) :
    (run_update now fails u).2.1 = drainOrder now u := by
  simp [run_update, runCalls_of_ne_raise u.debug_type h]

/-- Under a non-raising policy no exception escapes run_update. -/
lemma run_update_no_abort (now : Int) (fails : Nat → Nat → Bool)
    (u : ThreadUpdater) (h : u.debug_type ≠ DebugType.raiseErr) :
    (run_update now fails u).2.2 = false := by
  simp [run_update, runCalls_of_ne_raise u.debug_type h]

/-! ### OrderedDict lemmas -/

lemma callsTo_append (f : Nat) (a b : List Call) :
    callsTo f (a ++ b) = callsTo f a ++ callsTo f b := by
  simp [callsTo]

lemma callsTo_eq_nil (f : Nat) (l : List Call) (h : ∀ c ∈ l, c.1 ≠ f) :
    callsTo f l = [] := by
  induction l with
  | nil => rfl
  | cons c rest ih =>
    have hc : (c.1 == f) = false := by
      simpa using h c (by simp)
    simp only [callsTo, List.filter_cons, hc, cond_false]
    exact ih fun q hq => h q (by simp [hq])

lemma odSet_of_not_mem (d : List (Nat × Nat)) (k v : Nat)
    (h : ∀ p ∈ d, p.1 ≠ k) : odSet d k v = d ++ [(k, v)] := by
  have hany : d.any (fun p => p.1 == k) = false := by
    simp only [List.any_eq_false]
    intro p hp
    simpa using h p hp
  simp [odSet, hany]

lemma odSet_cons_of_key (p : Nat × Nat) (rest : List (Nat × Nat)) (k v : Nat)
    (hp : p.1 = k) (hrest : ∀ q ∈ rest, q.1 ≠ k) :
    odSet (p :: rest) k v = (k, v) :: rest := by
  have hany : (p :: rest).any (fun q => q.1 == k) = true := by
    simp [hp]
  have hmap : rest.map (fun q => if (q.1 == k) = true then (q.1, v) else q) = rest := by
    have hcong : ∀ q ∈ rest,
        (if (q.1 == k) = true then (q.1, v) else q) = q := by
      intro q hq
      have hqk : (q.1 == k) = false := by simpa using hrest q hq
      simp [hqk]
    calc rest.map (fun q => if (q.1 == k) = true then (q.1, v) else q)
        = rest.map id := List.map_congr_left hcong
      _ = rest := List.map_id rest
  simp only [odSet, hany, if_true, List.map_cons, hmap]
  simp [hp]

lemma odSet_cons_of_ne (p : Nat × Nat) (rest : List (Nat × Nat)) (k v : Nat)
    (hp : p.1 ≠ k) : odSet (p :: rest) k v = p :: odSet rest k v := by
  have hpb : (p.1 == k) = false := by simpa using hp
  by_cases ha : rest.any (fun q => q.1 == k) = true
  · have hany : (p :: rest).any (fun q => q.1 == k) = true := by
      simp [List.any_cons, ha]
    simp only [odSet, hany, ha, if_true, List.map_cons, hpb, Bool.false_eq_true,
      if_false]
  · rw [Bool.not_eq_true] at ha
    have hany : (p :: rest).any (fun q => q.1 == k) = false := by
      simp [List.any_cons, hpb, ha]
    simp only [odSet, hany, ha, Bool.false_eq_true, if_false, List.cons_append]

lemma odKeys_odSet (d : List (Nat × Nat)) (k v : Nat) :
    odKeys (odSet d k v)
      = if d.any (fun p => p.1 == k) then odKeys d else odKeys d ++ [k] := by
  by_cases ha : d.any (fun p => p.1 == k) = true
  · simp only [odSet, odKeys, ha, if_true, List.map_map]
    apply List.map_congr_left
    intro p _
    by_cases hp : (p.1 == k) = true
    · simp only [Function.comp_apply, hp, if_true]
    · rw [Bool.not_eq_true] at hp
      simp only [Function.comp_apply, hp, Bool.false_eq_true, if_false]
  · rw [Bool.not_eq_true] at ha
    simp [odSet, odKeys, ha]

lemma not_mem_odKeys_of_any_false (d : List (Nat × Nat)) (k : Nat)
    (ha : d.any (fun p => p.1 == k) = false) : k ∉ odKeys d := by
  intro hmem
  rcases List.mem_map.mp hmem with ⟨p, hp, hpk⟩
  rw [List.any_eq_false] at ha
  exact absurd (by simpa using hpk) (by simpa using ha p hp)

lemma odKeys_odSet_nodup (d : List (Nat × Nat)) (k v : Nat)
    (h : (odKeys d).Nodup) : (odKeys (odSet d k v)).Nodup := by
  rw [odKeys_odSet]
  by_cases ha : d.any (fun p => p.1 == k) = true
  · simpa [ha] using h
  · rw [Bool.not_eq_true] at ha
    have hk : k ∉ odKeys d := not_mem_odKeys_of_any_false d k ha
    simp [ha, List.nodup_append, h, hk]

lemma odAppend_of_not_mem (d : List (Nat × List Nat)) (k v : Nat)
    (h : ∀ p ∈ d, p.1 ≠ k) : odAppend d k v = d ++ [(k, [v])] := by
  have hany : d.any (fun p => p.1 == k) = false := by
    simp only [List.any_eq_false]
    intro p hp
    simpa using h p hp
  simp [odAppend, hany]

lemma odAppend_cons_of_key (p : Nat × List Nat) (rest : List (Nat × List Nat))
    (k v : Nat) (hp : p.1 = k) (hrest : ∀ q ∈ rest, q.1 ≠ k) :
    odAppend (p :: rest) k v = (p.1, p.2 ++ [v]) :: rest := by
  have hany : (p :: rest).any (fun q => q.1 == k) = true := by
    simp [hp]
  have hmap : rest.map (fun q => if (q.1 == k) = true then (q.1, q.2 ++ [v]) else q)
      = rest := by
    have hcong : ∀ q ∈ rest,
        (if (q.1 == k) = true then (q.1, q.2 ++ [v]) else q) = q := by
      intro q hq
      have hqk : (q.1 == k) = false := by simpa using hrest q hq
      simp [hqk]
    calc rest.map (fun q => if (q.1 == k) = true then (q.1, q.2 ++ [v]) else q)
        = rest.map id := List.map_congr_left hcong
      _ = rest := List.map_id rest
  simp only [odAppend, hany, if_true, List.map_cons, hmap]
  simp [hp]

lemma odAppend_cons_of_ne (p : Nat × List Nat) (rest : List (Nat × List Nat))
    (k v : Nat) (hp : p.1 ≠ k) :
    odAppend (p :: rest) k v = p :: odAppend rest k v := by
  have hpb : (p.1 == k) = false := by simpa using hp
  by_cases ha : rest.any (fun q => q.1 == k) = true
  · have hany : (p :: rest).any (fun q => q.1 == k) = true := by
      simp [List.any_cons, ha]
    simp only [odAppend, hany, ha, if_true, List.map_cons, hpb,
      Bool.false_eq_true, if_false]
  · rw [Bool.not_eq_true] at ha
    have hany : (p :: rest).any (fun q => q.1 == k) = false := by
      simp [List.any_cons, hpb, ha]
    simp only [odAppend, hany, ha, Bool.false_eq_true, if_false,
      List.cons_append]

lemma odKeysQ_odAppend (d : List (Nat × List Nat)) (k v : Nat) :
    odKeysQ (odAppend d k v)
      = if d.any (fun p => p.1 == k) then odKeysQ d else odKeysQ d ++ [k] := by
  by_cases ha : d.any (fun p => p.1 == k) = true
  · simp only [odAppend, odKeysQ, ha, if_true, List.map_map]
    apply List.map_congr_left
    intro p _
    by_cases hp : (p.1 == k) = true
    · simp only [Function.comp_apply, hp, if_true]
    · rw [Bool.not_eq_true] at hp
      simp only [Function.comp_apply, hp, Bool.false_eq_true, if_false]
  · rw [Bool.not_eq_true] at ha
    simp [odAppend, odKeysQ, ha]

lemma not_mem_odKeysQ_of_any_false (d : List (Nat × List Nat)) (k : Nat)
    (ha : d.any (fun p => p.1 == k) = false) : k ∉ odKeysQ d := by
  intro hmem
  rcases List.mem_map.mp hmem with ⟨p, hp, hpk⟩
  rw [List.any_eq_false] at ha
  exact absurd (by simpa using hpk) (by simpa using ha p hp)

lemma odKeysQ_odAppend_nodup (d : List (Nat × List Nat)) (k v : Nat)
    (h : (odKeysQ d).Nodup) : (odKeysQ (odAppend d k v)).Nodup := by
  rw [odKeysQ_odAppend]
  by_cases ha : d.any (fun p => p.1 == k) = true
  · simpa [ha] using h
  · rw [Bool.not_eq_true] at ha
    have hk : k ∉ odKeysQ d := not_mem_odKeysQ_of_any_false d k ha
    simp [ha, List.nodup_append, h, hk]

lemma qArgs_eq_nil (d : List (Nat × List Nat)) (k : Nat)
    (h : ∀ p ∈ d, p.1 ≠ k) : qArgs d k = [] := by
  have : d.filter (fun p => p.1 == k) = [] := by
    induction d with
    | nil => rfl
    | cons p rest ih =>
      have hpb : (p.1 == k) = false := by simpa using h p (by simp)
      simp only [List.filter_cons, hpb, cond_false]
      exact ih fun q hq => h q (by simp [hq])
  simp [qArgs, this]

/-- Appending to a queued target in a well-formed dictionary extends exactly
that target's argument list at the back. -/
lemma qArgs_odAppend_self (d : List (Nat × List Nat)) (k v : Nat)
    (h : (odKeysQ d).Nodup) : qArgs (odAppend d k v) k = qArgs d k ++ [v] := by
  induction d with
  | nil => simp [odAppend, qArgs]
  | cons p rest ih =>
    simp only [odKeysQ, List.map_cons, List.nodup_cons] at h
    by_cases hp : p.1 = k
    · have hrest : ∀ q ∈ rest, q.1 ≠ k := by
        intro q hq hqk
        exact h.1 (hp ▸ hqk ▸ List.mem_map_of_mem Prod.fst hq)
      rw [odAppend_cons_of_key p rest k v hp hrest]
      have hq : qArgs rest k = [] := qArgs_eq_nil rest k hrest
      have hpb : (p.1 == k) = true := by simpa using hp
      simp only [qArgs, List.filter_cons, hpb, cond_true, List.flatMap_cons] at hq ⊢
      simp [hq]
    · rw [odAppend_cons_of_ne p rest k v hp]
      have hpb : (p.1 == k) = false := by simpa using hp
      simp only [qArgs, List.filter_cons, hpb, cond_false] at ih ⊢
      exact ih h.2

/-- The queued-phase loop of run_update (for func, li in main.items(): for
args, kwargs in li) restricted to one target yields exactly that target's
queued argument list, in order. -/
lemma callsTo_flatMap (f : Nat) (d : List (Nat × List Nat)) :
    callsTo f (d.flatMap (fun p => p.2.map (fun a => (p.1, a))))
      = (qArgs d f).map (fun a => (f, a)) := by
  induction d with
  | nil => rfl
  | cons p rest ih =>
    by_cases hp : p.1 = f
    · have hpb : (p.1 == f) = true := by simpa using hp
      have hA : callsTo f (p.2.map (fun a => (p.1, a))) = p.2.map (fun a => (f, a)) := by
        simp only [callsTo, List.filter_map]
        have hf : p.2.filter ((fun c : Call => c.1 == f) ∘ fun a => (p.1, a)) = p.2 := by
          apply List.filter_eq_self.mpr
          intro a _
          simpa using hp
        rw [hf, hp]
      have hq : qArgs (p :: rest) f = p.2 ++ qArgs rest f := by
        simp [qArgs, List.filter_cons, hpb]
      rw [List.flatMap_cons, callsTo_append, hA, hq, List.map_append, ih]
    · have hpb : (p.1 == f) = false := by simpa using hp
      simp only [List.flatMap_cons, callsTo_append, qArgs, List.filter_cons,
        hpb, cond_false]
      have hnil : callsTo f (p.2.map (fun a => (p.1, a))) = [] := by
        apply callsTo_eq_nil
        intro c hc
        rcases List.mem_map.mp hc with ⟨a, _, rfl⟩
        exact hp
      simp only [hnil, List.nil_append]
      exact ih

/-- Repeated call_in_main submissions only touch _every_call, via the locked
append. -/
lemma submitQueuedAll_components (m : Bool) (f : Nat) (xs : List Nat)
    (u : ThreadUpdater) :
    (submitQueuedAll m f xs u).every_call
        = xs.foldl (fun d x => odAppend d f x) u.every_call
      ∧ (submitQueuedAll m f xs u).latest_call = u.latest_call
      ∧ (submitQueuedAll m f xs u).always_call = u.always_call
      ∧ (submitQueuedAll m f xs u).delay_call = u.delay_call
      ∧ (submitQueuedAll m f xs u).debug_type = u.debug_type := by
  induction xs generalizing u with
  | nil => simp [submitQueuedAll]
  | cons x xs ih =>
    have hstep : submitQueuedAll m f (x :: xs) u
        = submitQueuedAll m f xs (call_in_main m f x u) := rfl
    rw [hstep]
    rcases ih (call_in_main m f x u) with ⟨h1, h2, h3, h4, h5⟩
    refine ⟨?_, ?_, ?_, ?_, ?_⟩ <;>
      simp [h1, h2, h3, h4, h5, List.foldl_cons]

/-- A run of appends for one target extends that target's queue in order. -/
lemma qArgs_foldl (f : Nat) (xs : List Nat) (d : List (Nat × List Nat))
    (h : (odKeysQ d).Nodup) :
    qArgs (xs.foldl (fun w x => odAppend w f x) d) f = qArgs d f ++ xs := by
  induction xs generalizing d with
  | nil => simp
  | cons x xs ih =>
    simp only [List.foldl_cons]
    rw [ih (odAppend d f x) (odKeysQ_odAppend_nodup d f x h),
      qArgs_odAppend_self d f x h]
    simp

@[simp]
lemma register_continuous_always_call (m : Bool) (f a : Nat) (u : ThreadUpdater) :
    (register_continuous m f a u).always_call = odSet u.always_call f a := by
  simp [register_continuous]

@[simp]
lemma register_continuous_latest_call (m : Bool) (f a : Nat) (u : ThreadUpdater) :
    (register_continuous m f a u).latest_call = u.latest_call := by
  simp [register_continuous]

@[simp]
lemma register_continuous_every_call (m : Bool) (f a : Nat) (u : ThreadUpdater) :
    (register_continuous m f a u).every_call = u.every_call := by
  simp [register_continuous]

@[simp]
lemma register_continuous_delay_call (m : Bool) (f a : Nat) (u : ThreadUpdater) :
    (register_continuous m f a u).delay_call = u.delay_call := by
  simp [register_continuous]

@[simp]
lemma register_continuous_debug_type (m : Bool) (f a : Nat) (u : ThreadUpdater) :
    (register_continuous m f a u).debug_type = u.debug_type := by
  simp [register_continuous]

/-- Every binding left by pop(func, None) has a different key, so the target
no longer receives calls from the continuous phase. -/
lemma callsTo_odPop (d : List (Nat × Nat)) (f : Nat) :
    callsTo f (odPop d f) = [] := by
  apply callsTo_eq_nil
  intro c hc
  have := List.mem_filter.mp hc
  simpa using this.2

/-- When no delayed entry targets f, the delayed phase contributes no call
to f. -/
lemma callsTo_collectDelayed_nil (f : Nat) (now : Int) (l : List DelayedFunc)
    (h : ∀ d ∈ l, d.func ≠ f) :
    callsTo f ((collectDelayed now l).1.map (fun d => (d.func, d.args))) = [] := by
  apply callsTo_eq_nil
  intro c hc
  rcases List.mem_map.mp hc with ⟨d, hd, rfl⟩
  rw [collectDelayed_eq] at hd
  simp only [List.mem_reverse, List.mem_filter] at hd
  exact h d hd.1

/-- Every continuous snapshot entry is part of the drain order. -/
lemma mem_drainOrder_of_mem_always (now : Int) (u : ThreadUpdater) (c : Call)
    (h : c ∈ u.always_call) : c ∈ drainOrder now u := by
  simp only [drainOrder, List.mem_append]
  tauto

/-- Under a non-raising policy, every continuous snapshot entry is invoked by
the drain. -/
lemma mem_trace_of_mem_always (now : Int) (fails : Nat → Nat → Bool)
    (u : ThreadUpdater) (c : Call) (h : c ∈ u.always_call)
    (hdt : u.debug_type ≠ DebugType.raiseErr) :
    c ∈ (run_update now fails u).2.1 := by
  rw [run_update_trace_of_ne_raise now fails u hdt]
  exact mem_drainOrder_of_mem_always now u c h

/-- Across any number of drains, the continuous dictionary is preserved, so a
registered entry is invoked by every one of the N drains. -/
lemma mem_traces_of_mem_always (now : Int) (fails : Nat → Nat → Bool)
    (N : Nat) (u : ThreadUpdater) (c : Call) (hc : c ∈ u.always_call)
    (hdt : u.debug_type ≠ DebugType.raiseErr) :
    ∀ tr ∈ (drainTraces now fails N u).2, c ∈ tr := by
  induction N generalizing u with
  | zero =>
    intro tr htr
    simp [drainTraces] at htr
  | succ n ih =>
    intro tr htr
    rcases List.mem_cons.mp htr with h | h
    · subst h
      exact mem_trace_of_mem_always now fails u c hc hdt
    · refine ih (run_update now fails u).1 ?_ ?_ tr h
      · rw [run_update_state]
        exact hc
      · rw [run_update_state]
        exact hdt

/-- If no pending latest/queued/delayed work exists, run_update changes no
collection: the continuous dictionary stays, the rest stay empty, and each of
the N drains runs exactly the continuous snapshot. -/
lemma drainTraces_always_only (now : Int) (fails : Nat → Nat → Bool) (N : Nat)
    (u : ThreadUpdater) (hL : u.latest_call = []) (hE : u.every_call = [])
    (hD : u.delay_call = []) (hdt : u.debug_type ≠ DebugType.raiseErr) :
    (drainTraces now fails N u).2 = List.replicate N u.always_call
    ∧ (drainTraces now fails N u).1.always_call = u.always_call
    ∧ (drainTraces now fails N u).1.latest_call = []
    ∧ (drainTraces now fails N u).1.every_call = []
    ∧ (drainTraces now fails N u).1.delay_call = []
    ∧ (drainTraces now fails N u).1.debug_type = u.debug_type := by
  induction N generalizing u with
  | zero =>
    simp [drainTraces, hL, hE, hD]
  | succ n ih =>
    have htrace : (run_update now fails u).2.1 = u.always_call := by
      rw [run_update_trace_of_ne_raise now fails u hdt]
      simp [drainOrder, hL, hE, hD, collectDelayed]
    have hstate := run_update_state now fails u
    have hnext := ih (run_update now fails u).1
      (by rw [hstate]) (by rw [hstate]) (by rw [hstate]; simp [hD])
      (by rw [hstate]; exact hdt)
    have halways : (run_update now fails u).1.always_call = u.always_call := by
      rw [hstate]
    refine ⟨?_, ?_, ?_, ?_, ?_, ?_⟩
    · show (run_update now fails u).2.1
          :: (drainTraces now fails n (run_update now fails u).1).2
        = List.replicate (n + 1) u.always_call
      rw [htrace, hnext.1, halways, List.replicate_succ]
    · show (drainTraces now fails n (run_update now fails u).1).1.always_call
        = u.always_call
      rw [hnext.2.1, halways]
    · exact hnext.2.2.1
    · exact hnext.2.2.2.1
    · exact hnext.2.2.2.2.1
    · show (drainTraces now fails n (run_update now fails u).1).1.debug_type
        = u.debug_type
      rw [hnext.2.2.2.2.2, hstate]

/-- The abort behaviour of the run loop under RAISE_ERROR: every call before
the first failing one runs, the failing call runs and re-raises, everything
after it is skipped. -/
lemma runCalls_raise_abort (fails : Nat → Nat → Bool) (pre : List Call)
    (c : Call) (post : List Call)
    (hpre : ∀ x ∈ pre, fails x.1 x.2 = false) (hc : fails c.1 c.2 = true) :
    runCalls DebugType.raiseErr fails (pre ++ c :: post) = (pre ++ [c], true) := by
  induction pre with
  | nil => simp [runCalls, hc]
  | cons x xs ih =>
    have hx : fails x.1 x.2 = false := hpre x (by simp)
    have hrest := ih fun y hy => hpre y (by simp [hy])
    simp [runCalls, hx, hrest]

/-- Overwriting a key in a well-formed OrderedDict: the post-state has exactly
one binding for that key, holding the new value. -/
lemma callsTo_odSet_self (d : List (Nat × Nat)) (k v : Nat)
    (h : (odKeys d).Nodup) : callsTo k (odSet d k v) = [(k, v)] := by
  induction d with
  | nil => simp [odSet, callsTo]
  | cons p rest ih =>
    simp only [odKeys, List.map_cons, List.nodup_cons] at h
    by_cases hp : p.1 = k
    · have hrest : ∀ q ∈ rest, q.1 ≠ k := by
        intro q hq hqk
        exact h.1 (hp ▸ hqk ▸ List.mem_map_of_mem Prod.fst hq)
      rw [odSet_cons_of_key p rest k v hp hrest]
      have : callsTo k rest = [] := callsTo_eq_nil k rest hrest
      simp [callsTo, List.filter_cons] at this ⊢
      exact this
    · rw [odSet_cons_of_ne p rest k v hp]
      have hpb : (p.1 == k) = false := by simpa using hp
      simp only [callsTo, List.filter_cons, hpb, cond_false]
      exact ih h.2

/-! ### The claims -/

/-- Claim C1 (latest-wins submission): for every target f, submitting
call_latest(f, a1) then call_latest(f, a2) with no intervening drain results in
exactly one invocation of f during the next drain, with the last-submitted
arguments a2 (stated for a target with no pending continuous / queued / delayed
work, under a policy that does not re-raise, so that the whole drain runs). -/
theorem C1_latest_wins (u : ThreadUpdater) (m1 m2 : Bool) (f a1 a2 : Nat)
    (now : Int) (fails : Nat → Nat → Bool)
    (hnodup : (odKeys u.latest_call).Nodup)
    (hA : ∀ p ∈ u.always_call, p.1 ≠ f)
    (hE : ∀ p ∈ u.every_call, p.1 ≠ f)
    (hD : ∀ d ∈ u.delay_call, d.func ≠ f)
    (hdt : u.debug_type ≠ DebugType.raiseErr) :
    callsTo f
        (run_update now fails (call_latest m2 f a2 (call_latest m1 f a1 u))).2.1
      = [(f, a2)] := by
  set u2 := call_latest m2 f a2 (call_latest m1 f a1 u) with hu2
  have hdt2 : u2.debug_type ≠ DebugType.raiseErr := by
    simpa [hu2] using hdt
  rw [run_update_trace_of_ne_raise now fails u2 hdt2]
  simp only [drainOrder, callsTo_append]
  have h1 : callsTo f ((collectDelayed now u2.delay_call).1.map
      (fun d => (d.func, d.args))) = [] := by
    rw [show u2.delay_call = u.delay_call by simp [hu2]]
    exact callsTo_collectDelayed_nil f now u.delay_call hD
  have h2 : callsTo f u2.always_call = [] := by
    rw [show u2.always_call = u.always_call by simp [hu2]]
    exact callsTo_eq_nil f u.always_call hA
  have h3 : callsTo f u2.latest_call = [(f, a2)] := by
    rw [show u2.latest_call = odSet (odSet u.latest_call f a1) f a2 by simp [hu2]]
    exact callsTo_odSet_self _ f a2 (odKeys_odSet_nodup _ f a1 hnodup)
  have h4 : callsTo f (u2.every_call.flatMap
      (fun p => p.2.map (fun a => (p.1, a)))) = [] := by
    rw [show u2.every_call = u.every_call by simp [hu2]]
    rw [callsTo_flatMap, qArgs_eq_nil u.every_call f hE]
    rfl
  rw [h1, h2, h3, h4]
  rfl

/-- Claim C2 (queued submissions preserve every call in order): submitting
call_in_main(f, x1), ..., call_in_main(f, xn) with no intervening drain makes
the next drain invoke f exactly n times, with arguments x1 ... xn in submission
order; per-target queued submissions never collapse (stated for a target with
no other pending work, under a policy that does not re-raise). -/
theorem C2_queued_preserves_all (u : ThreadUpdater) (m : Bool) (f : Nat)
    (xs : List Nat) (now : Int) (fails : Nat → Nat → Bool)
    (hnodup : (odKeysQ u.every_call).Nodup)
    (hE : ∀ p ∈ u.every_call, p.1 ≠ f)
    (hA : ∀ p ∈ u.always_call, p.1 ≠ f)
    (hL : ∀ p ∈ u.latest_call, p.1 ≠ f)
    (hD : ∀ d ∈ u.delay_call, d.func ≠ f)
    (hdt : u.debug_type ≠ DebugType.raiseErr) :
    callsTo f (run_update now fails (submitQueuedAll m f xs u)).2.1
      = xs.map (fun x => (f, x)) := by
  obtain ⟨he, hl, ha, hd, hdbg⟩ := submitQueuedAll_components m f xs u
  have hdt2 : (submitQueuedAll m f xs u).debug_type ≠ DebugType.raiseErr := by
    rw [hdbg]; exact hdt
  rw [run_update_trace_of_ne_raise now fails _ hdt2]
  simp only [drainOrder, callsTo_append]
  have h1 : callsTo f ((collectDelayed now (submitQueuedAll m f xs u).delay_call).1.map
      (fun d => (d.func, d.args))) = [] := by
    rw [hd]
    exact callsTo_collectDelayed_nil f now u.delay_call hD
  have h2 : callsTo f (submitQueuedAll m f xs u).always_call = [] := by
    rw [ha]
    exact callsTo_eq_nil f u.always_call hA
  have h3 : callsTo f (submitQueuedAll m f xs u).latest_call = [] := by
    rw [hl]
    exact callsTo_eq_nil f u.latest_call hL
  have h4 : callsTo f ((submitQueuedAll m f xs u).every_call.flatMap
      (fun p => p.2.map (fun a => (p.1, a)))) = xs.map (fun x => (f, x)) := by
    rw [he, callsTo_flatMap, qArgs_foldl f xs u.every_call hnodup,
      qArgs_eq_nil u.every_call f hE]
    rfl
  rw [h1, h2, h3, h4]
  rfl

/-- Claim C3 (continuous persistence): after register_continuous(f), every one
of N drains invokes f exactly once (the drain snapshots the continuous
collection without clearing it); after unregister_continuous(f), the following
M drains no longer invoke f (stated from a state with no other pending work for
any target and no prior registration of f, under a non-re-raising policy). -/
theorem C3_continuous_persistence (u : ThreadUpdater) (m : Bool) (f a : Nat)
    (N M : Nat) (now : Int) (fails : Nat → Nat → Bool)
    (hL : u.latest_call = []) (hE : u.every_call = []) (hD : u.delay_call = [])
    (hA : ∀ p ∈ u.always_call, p.1 ≠ f)
    (hdt : u.debug_type ≠ DebugType.raiseErr) :
    ((drainTraces now fails N (register_continuous m f a u)).2.map (callsTo f)
       = List.replicate N [(f, a)])
    ∧ ((drainTraces now fails M (unregister_continuous f
          (drainTraces now fails N (register_continuous m f a u)).1)).2.map
            (callsTo f)
       = List.replicate M []) := by
  set u1 := register_continuous m f a u with hu1
  have hu1L : u1.latest_call = [] := by simp [hu1, hL]
  have hu1E : u1.every_call = [] := by simp [hu1, hE]
  have hu1D : u1.delay_call = [] := by simp [hu1, hD]
  have hu1dt : u1.debug_type ≠ DebugType.raiseErr := by simpa [hu1] using hdt
  have hcf : callsTo f u1.always_call = [(f, a)] := by
    rw [show u1.always_call = u.always_call ++ [(f, a)] by
      simp [hu1, odSet_of_not_mem u.always_call f a hA]]
    rw [callsTo_append, callsTo_eq_nil f u.always_call hA]
    simp [callsTo]
  obtain ⟨ht, hal, hl2, he2, hd2, hdbg⟩ :=
    drainTraces_always_only now fails N u1 hu1L hu1E hu1D hu1dt
  refine ⟨?_, ?_⟩
  · rw [ht, List.map_replicate, hcf]
  · set v := (drainTraces now fails N u1).1 with hv
    have hwL : (unregister_continuous f v).latest_call = [] := hl2
    have hwE : (unregister_continuous f v).every_call = [] := he2
    have hwD : (unregister_continuous f v).delay_call = [] := hd2
    have hwdt : (unregister_continuous f v).debug_type ≠ DebugType.raiseErr := by
      show v.debug_type ≠ DebugType.raiseErr
      rw [hdbg]
      exact hu1dt
    have hwcf : callsTo f (unregister_continuous f v).always_call = [] :=
      callsTo_odPop v.always_call f
    obtain ⟨ht2, _, _, _, _, _⟩ :=
      drainTraces_always_only now fails M (unregister_continuous f v)
        hwL hwE hwD hwdt
    rw [ht2, List.map_replicate, hwcf]

/-- Claim C4 (drain phase order): every drain executes the collected work in
this fixed order — all eligible delayed entries first, then all continuous
entries in snapshot order, then all latest entries in snapshot order, then all
queued entries grouped by target with per-target submission order preserved
(stated under a policy that does not re-raise, so no call is skipped). -/
theorem C4_drain_phase_order (u : ThreadUpdater) (now : Int)
    (fails : Nat → Nat → Bool) (hdt : u.debug_type ≠ DebugType.raiseErr) :
    (run_update now fails u).2.1
      = (u.delay_call.filter (fun d => d.can_run now)).reverse.map
          (fun d => (d.func, d.args))
        ++ u.always_call ++ u.latest_call
        ++ u.every_call.flatMap (fun p => p.2.map (fun a => (p.1, a))) := by
  rw [run_update_trace_of_ne_raise now fails u hdt]
  simp [drainOrder, collectDelayed_eq]

/-- Claim C5, counterexample: two delayed entries, target 1 submitted first
(list position 0) and target 2 second, both eligible at the drain.  The claim
predicts execution order equal to their position in the internal pending list,
i.e. [(1, 11), (2, 22)]; the code pops from the back and runs [(2, 22), (1, 11)]. -/
theorem C5_counterexample :
    u5cex.delay_call = [⟨0, 0, 1, 11⟩, ⟨0, 0, 2, 22⟩]
    ∧ (∀ d ∈ u5cex.delay_call, d.can_run 0 = true)
    ∧ (run_update 0 failNone u5cex).2.1 = [(2, 22), (1, 11)]
    ∧ (run_update 0 failNone u5cex).2.1 ≠ [(1, 11), (2, 22)] := by
  decide

/-- Claim C5, amended: when multiple delayed entries are eligible at the same
drain, they all fire within that drain, before every other phase, and their
relative execution order is the REVERSE of their position in the internal
pending list — not insertion order, and not their nominal deadline. -/
theorem C5_delayed_reverse_order (u : ThreadUpdater) (now : Int)
    (fails : Nat → Nat → Bool) (hdt : u.debug_type ≠ DebugType.raiseErr) :
    ((u.delay_call.filter (fun d => d.can_run now)).reverse.map
        (fun d => (d.func, d.args))) <+: (run_update now fails u).2.1 := by
  rw [run_update_trace_of_ne_raise now fails u hdt]
  simp only [drainOrder, collectDelayed_eq]
  refine List.IsPrefix.trans ?_ (List.prefix_append _ _)
  refine List.IsPrefix.trans ?_ (List.prefix_append _ _)
  exact List.prefix_append _ _

/-- Claim C6 (delayed one-shot semantics): a delayed entry executes only when
now - submitTime >= delaySeconds (never early), executes at most once, and the
eligible entries are removed from the pending list in the same drain pass in
which they execute regardless of the outcome of any callable (the removal
equality holds for every error policy and failure oracle); ineligible entries
remain in the pending list for later drains. -/
theorem C6_delayed_one_shot (u : ThreadUpdater) (now : Int)
    (fails : Nat → Nat → Bool) :
    (run_update now fails u).1.delay_call
        = u.delay_call.filter (fun d => !(d.can_run now))
    ∧ (u.debug_type ≠ DebugType.raiseErr → u.always_call = [] →
       u.latest_call = [] → u.every_call = [] →
       (run_update now fails u).2.1
         = (u.delay_call.filter (fun d => d.can_run now)).reverse.map
             (fun d => (d.func, d.args))) := by
  constructor
  · rw [run_update_state]
  · intro hdt hA hL hE
    rw [run_update_trace_of_ne_raise now fails u hdt]
    simp [drainOrder, collectDelayed_eq, hA, hL, hE]

/-- Claim C7 (error isolation under suppress/report policies): with debug_type
HIDE_ERROR or PRINT_ERROR, for two registered continuous callbacks where the
first raises on every invocation and the second does not, every one of N drains
still invokes the second callback; one callable's failure never prevents
subsequent callables from running in the same drain. -/
theorem C7_error_isolation (u : ThreadUpdater) (now : Int)
    (fails : Nat → Nat → Bool) (f1 a1 f2 a2 : Nat) (N : Nat)
    (hdt : u.debug_type = DebugType.hideErr ∨ u.debug_type = DebugType.printErr)
    (h1 : (f1, a1) ∈ u.always_call)
    (hf1 : ∀ x, fails f1 x = true)
    (h2 : (f2, a2) ∈ u.always_call)
    (hf2 : fails f2 a2 = false) :
    ∀ tr ∈ (drainTraces now fails N u).2, (f2, a2) ∈ tr := by
  have hne : u.debug_type ≠ DebugType.raiseErr := by
    rcases hdt with h | h <;> simp [h]
  exact mem_traces_of_mem_always now fails N u (f2, a2) h2 hne

/-- Claim C8 (propagate policy aborts the rest of the tick): with debug_type
RAISE_ERROR, the first failing callable's exception escapes the drain and skips
all later callables scheduled in that drain; afterwards the continuous entries
remain registered (and appear in any later drain's order), while the latest,
queued and delayed entries already swapped out of their collections are gone. -/
theorem C8_propagate_abort (u : ThreadUpdater) (now : Int)
    (fails : Nat → Nat → Bool) (pre : List Call) (c : Call) (post : List Call)
    (hdt : u.debug_type = DebugType.raiseErr)
    (horder : drainOrder now u = pre ++ c :: post)
    (hpre : ∀ x ∈ pre, fails x.1 x.2 = false)
    (hc : fails c.1 c.2 = true) :
    (run_update now fails u).2.1 = pre ++ [c]
    ∧ (run_update now fails u).2.2 = true
    ∧ (run_update now fails u).1.always_call = u.always_call
    ∧ (∀ now2, ∀ p ∈ u.always_call, p ∈ drainOrder now2 (run_update now fails u).1)
    ∧ (run_update now fails u).1.latest_call = []
    ∧ (run_update now fails u).1.every_call = []
    ∧ (run_update now fails u).1.delay_call
        = u.delay_call.filter (fun d => !(d.can_run now)) := by
  have htr : runCalls u.debug_type fails (drainOrder now u) = (pre ++ [c], true) := by
    rw [hdt, horder]
    exact runCalls_raise_abort fails pre c post hpre hc
  refine ⟨?_, ?_, ?_, ?_, ?_, ?_, ?_⟩
  · show (runCalls u.debug_type fails (drainOrder now u)).1 = pre ++ [c]
    rw [htr]
  · show (runCalls u.debug_type fails (drainOrder now u)).2 = true
    rw [htr]
  · rw [run_update_state]
  · intro now2 p hp
    apply mem_drainOrder_of_mem_always
    rw [run_update_state]
    exact hp
  · rw [run_update_state]
  · rw [run_update_state]
  · rw [run_update_state]

/-- Claim C9, counterexample: ensure_running is an operation the source runs
on any calling thread (it never consults is_main_thread), and invoked with the
thread-identity predicate false on a stopped updater it mutates the running
flag directly — the change is not deferred to a marshalled request. -/
theorem C9_counterexample :
    u9cex.running = false
    ∧ (ensure_running false u9cex).running = true
    ∧ (ensure_running false u9cex).running ≠ u9cex.running := by
  decide

/-- Claim C9, amended: stop, start and create_timer invoked off the privileged
thread leave both the running flag and the timer handle unchanged, deferring
the whole control transition through a marshalled signal; ensure_running,
however, sets the running flag directly from any thread (after it the flag is
true), touching only the flag and never the timer handle. -/
theorem C9_offthread_control_mutation (u : ThreadUpdater) (s : Bool) :
    ((stop false s u).running = u.running ∧ (stop false s u).tmr = u.tmr
      ∧ (stop false s u).pending = u.pending ++ [Signal.stopping])
    ∧ ((start false u).running = u.running ∧ (start false u).tmr = u.tmr
      ∧ (start false u).pending = u.pending ++ [Signal.starting])
    ∧ ((create_timer false u).running = u.running
      ∧ (create_timer false u).tmr = u.tmr
      ∧ (create_timer false u).pending = u.pending ++ [Signal.creating])
    ∧ (ensure_running false u).running = true
    ∧ (ensure_running false u).tmr = u.tmr := by
  refine ⟨⟨rfl, rfl, rfl⟩, ⟨rfl, rfl, rfl⟩, ⟨rfl, rfl, rfl⟩, ?_, ?_⟩
  · by_cases h : u.running = true <;> simp [ensure_running, h]
  · by_cases h : u.running = true <;> simp [ensure_running, h]

/-- Claim C10 (implicit: run-now fast paths bypass the error policy): on the
privileged thread, now_call_latest and now_call_in_main invoke the target
synchronously with no error-handling wrapper, so whether an exception reaches
the caller depends only on the callable — never on debug_type — while during a
drain a non-raising policy lets no exception escape. -/
theorem C10_now_call_bypasses_policy (u : ThreadUpdater)
    (fails : Nat → Nat → Bool) (f a : Nat) (now : Int) :
    now_call_latest true fails f a u = (u, [(f, a)], fails f a)
    ∧ now_call_in_main true fails f a u = (u, [(f, a)], fails f a)
    ∧ (u.debug_type ≠ DebugType.raiseErr → (run_update now fails u).2.2 = false) :=
  ⟨rfl, rfl, fun h => run_update_no_abort now fails u h⟩

/-! ### Concrete witnesses -/

/-- Witness for C1: submitting call_latest(7, 1) then call_latest(7, 2) to an
idle updater makes the next drain call 7 exactly once, with argument 2. -/
theorem C1_latest_wins_witness :
    (odKeys uBase.latest_call).Nodup
    ∧ uBase.debug_type ≠ DebugType.raiseErr
    ∧ callsTo 7 (run_update 0 failNone
        (call_latest false 7 2 (call_latest false 7 1 uBase))).2.1 = [(7, 2)] :=
  ⟨by decide, by decide,
   C1_latest_wins uBase false false 7 1 2 0 failNone (by decide) (by decide)
     (by decide) (by decide) (by decide)⟩

/-- Witness for C2: three call_in_main submissions for target 7 are all
delivered by the next drain, in submission order. -/
theorem C2_queued_preserves_all_witness :
    (odKeysQ uBase.every_call).Nodup
    ∧ uBase.debug_type ≠ DebugType.raiseErr
    ∧ callsTo 7 (run_update 0 failNone
        (submitQueuedAll false 7 [1, 2, 3] uBase)).2.1
        = [(7, 1), (7, 2), (7, 3)] :=
  ⟨by decide, by decide,
   (C2_queued_preserves_all uBase false 7 [1, 2, 3] 0 failNone (by decide)
     (by decide) (by decide) (by decide) (by decide) (by decide)).trans
     (by decide)⟩

/-- Witness for C3: after register_continuous(7, 5), two drains call 7 once
each; after unregister_continuous(7), the next drain calls it no more. -/
theorem C3_continuous_persistence_witness :
    (drainTraces 0 failNone 2 (register_continuous false 7 5 uBase)).2.map
        (callsTo 7) = [[(7, 5)], [(7, 5)]]
    ∧ (drainTraces 0 failNone 1 (unregister_continuous 7
        (drainTraces 0 failNone 2 (register_continuous false 7 5 uBase)).1)).2.map
        (callsTo 7) = [[]] := by
  have h := C3_continuous_persistence uBase false 7 5 2 1 0 failNone rfl rfl rfl
    (by decide) (by decide)
  exact ⟨h.1.trans (by decide), h.2.trans (by decide)⟩

/-- Witness for C4: with one eligible and one ineligible delayed entry and
nothing else pending, the drain runs exactly the eligible delayed entry. -/
theorem C4_drain_phase_order_witness :
    u6w.debug_type ≠ DebugType.raiseErr
    ∧ (run_update 0 failNone u6w).2.1 = [(1, 11)] :=
  ⟨by decide,
   (C4_drain_phase_order u6w 0 failNone (by decide)).trans (by decide)⟩

/-- Witness for the amended C5: with both delayed entries eligible, the drain
trace starts with the entries in reverse submission order. -/
theorem C5_delayed_reverse_order_witness :
    u5cex.debug_type ≠ DebugType.raiseErr
    ∧ [(2, 22), (1, 11)] <+: (run_update 0 failNone u5cex).2.1 :=
  ⟨by decide,
   (show (u5cex.delay_call.filter (fun d => d.can_run 0)).reverse.map
       (fun d => (d.func, d.args)) = [(2, 22), (1, 11)] by decide)
     ▸ C5_delayed_reverse_order u5cex 0 failNone (by decide)⟩

/-- Witness for C6: the eligible delayed entry (target 1) runs and is removed;
the ineligible one (target 9) stays in the pending list. -/
theorem C6_delayed_one_shot_witness :
    (run_update 0 failNone u6w).1.delay_call = [⟨0, 100, 9, 99⟩]
    ∧ (run_update 0 failNone u6w).2.1 = [(1, 11)] := by
  have h := C6_delayed_one_shot u6w 0 failNone
  exact ⟨h.1.trans (by decide), (h.2 (by decide) rfl rfl rfl).trans (by decide)⟩

/-- Witness for C7: with target 1 registered first and failing on every call
under HIDE_ERROR, target 2 is still invoked on each of the two drains. -/
theorem C7_error_isolation_witness :
    (1, 10) ∈ u7w.always_call
    ∧ (2, 20) ∈ u7w.always_call
    ∧ fail1 2 20 = false
    ∧ ∀ tr ∈ (drainTraces 0 fail1 2 u7w).2, (2, 20) ∈ tr :=
  ⟨by decide, by decide, by decide,
   C7_error_isolation u7w 0 fail1 1 10 2 20 2 (Or.inl rfl) (by decide)
     (fun _ => rfl) (by decide) (by decide)⟩

/-- Witness for C8: under RAISE_ERROR the failing first continuous callback
aborts the drain before the second one runs, but both stay registered. -/
theorem C8_propagate_abort_witness :
    u8w.debug_type = DebugType.raiseErr
    ∧ fail1 1 10 = true
    ∧ (run_update 0 fail1 u8w).2.1 = [(1, 10)]
    ∧ (run_update 0 fail1 u8w).2.2 = true
    ∧ (run_update 0 fail1 u8w).1.always_call = [(1, 10), (2, 20)] := by
  have h := C8_propagate_abort u8w 0 fail1 [] (1, 10) [(2, 20)] rfl (by decide)
    (by decide) (by decide)
  exact ⟨rfl, by decide, h.1.trans (by decide), h.2.1, h.2.2.1.trans (by decide)⟩

/-- Witness for C10: on the main thread under HIDE_ERROR the fast path lets
target 1's exception reach the caller, while the same failing target during a
drain lets nothing escape. -/
theorem C10_now_call_bypasses_policy_witness :
    u7w.debug_type = DebugType.hideErr
    ∧ now_call_latest true fail1 1 5 u7w = (u7w, [(1, 5)], true)
    ∧ now_call_in_main true fail1 1 5 u7w = (u7w, [(1, 5)], true)
    ∧ (run_update 0 fail1 u7w).2.2 = false := by
  have h := C10_now_call_bypasses_policy u7w fail1 1 5 0
  exact ⟨rfl, h.1, h.2.1, h.2.2 (by decide)⟩

end QtThreadUpdater
